import Mathlib

/-!
Verification of the mock-chain transaction core (`src/main.rs`).

The Rust program defines a `BasicToken` contract (a `HashMap<String, u64>`
ledger with `balance_of` and `transfer`) and a `Blockchain` dispatcher
(`validate_transaction_sequence` and `process_transaction` over a list of
contracts and a `HashMap<String, u64>` sequence table).

Embedding choices:
- `HashMap<String, u64>` is embedded as an association list
  `List (String × Nat)` with first-match lookup (`lget`, the model of
  `get(..).map(|x| *x)`) and first-occurrence replace-or-append insertion
  (`linsert`, the model of `insert`); these agree observationally with the
  Rust map.
- `u64` values are `Nat`; the one arithmetic operation that can overflow,
  the destination credit `target_balance += amount`, is embedded with an
  explicit `% 2^64` (unsigned wraparound); the sender debit is guarded by
  the insufficient-balance check and cannot underflow.
- `&mut self` methods returning `Result` become functions returning a pair
  of an `Except` result and the updated state; the error paths return the
  state unchanged, exactly as the Rust early returns do.
-/

namespace MockChain

/-- The `u64` modulus: values wrap at `2^64`. -/
def U64MOD : Nat := 2 ^ 64

/-- Model of `Error` in `src/main.rs`. -/
inductive Error where
  | NotEnoughBalance
  | ContractNotFound
  | BadTransactionSequence
deriving DecidableEq, Repr

/-- Model of `Method` in `src/main.rs`. -/
inductive Method where
  | BalanceOf
  | Transfer
deriving DecidableEq, Repr

/-- Model of `Transaction` in `src/main.rs`. -/
structure Transaction where
  sender : String
  sequence : Nat
  amount : Nat
  contract : String
  method : Method
  destination : String
deriving DecidableEq, Repr

/-- First-match lookup in an association list: the model of
`HashMap::get(&k).map(|x| *x)`. -/
def lget : List (String × Nat) → String → Option Nat
  | [], _ => none
  | p :: rest, a => if p.1 = a then some p.2 else lget rest a

/-- Lookup with default `0`: the model of
`get(&k).map(|x| *x).unwrap_or_default()`. -/
def lgetD (l : List (String × Nat)) (a : String) : Nat :=
  (lget l a).getD 0

/-- Replace the first binding of the key, or append a fresh one: the model
of `HashMap::insert(k, v)`. -/
def linsert : List (String × Nat) → String → Nat → List (String × Nat)
  | [], a, v => [(a, v)]
  | p :: rest, a, v => if p.1 = a then (a, v) :: rest else p :: linsert rest a v

/-- Sum of all balances recorded in a ledger. -/
def ledger_total : List (String × Nat) → Nat
  | [] => 0
  | p :: rest => p.2 + ledger_total rest

/-- Model of `BasicToken`: a contract id and its ledger. -/
structure BasicToken where
  contract : String
  ledger : List (String × Nat)
deriving DecidableEq, Repr

/-- Model of `BasicToken::new`: start from an empty ledger and insert the
initial balance for every airdropped address. -/
def BasicToken.new (contract : String) (airdrop_list : List String)
    (initial_balance : Nat) : BasicToken :=
  { contract := contract,
    ledger := airdrop_list.foldl (fun l addr => linsert l addr initial_balance) [] }

/-- Model of `BasicToken::balance_of`:
`self.ledger.get(&address).map(|x| *x).unwrap_or_default()`. -/
def balance_of (c : BasicToken) (address : String) : Nat :=
  lgetD c.ledger address

/-- Model of `BasicToken::transfer` (the Rust parameter `to` is spelled
`dst` because `to` is reserved in Lean). The error path returns `self`
untouched (the Rust early return precedes every mutation); on success the
sender is debited, then the destination is credited with `u64` wraparound. -/
def transfer (c : BasicToken) (sender : String) (amount : Nat) (dst : String) :
    Except Error Unit × BasicToken :=
  let balance := lgetD c.ledger sender
  if amount > balance then
    (.error .NotEnoughBalance, c)
  else
    let l1 := linsert c.ledger sender (balance - amount)
    let target_balance := lgetD l1 dst
    let l2 := linsert l1 dst ((target_balance + amount) % U64MOD)
    (.ok (), { c with ledger := l2 })

/-- Model of `Blockchain`: block height, contract registry, and the
per-sender sequence table (`accounts`). -/
structure Blockchain where
  block_height : Nat
  contracts : List BasicToken
  accounts : List (String × Nat)
deriving DecidableEq, Repr

/-- Model of `Blockchain::validate_transaction_sequence`: reject a sequence
not strictly above the sender's last-seen value (default 0) without any
mutation; otherwise record the new sequence. -/
def validate_transaction_sequence (b : Blockchain) (t : Transaction) :
    Except Error Unit × Blockchain :=
  let current_sequence := lgetD b.accounts t.sender
  if t.sequence ≤ current_sequence then
    (.error .BadTransactionSequence, b)
  else
    (.ok (), { b with accounts := linsert b.accounts t.sender t.sequence })

/-- Model of the contract-lookup loop in `Blockchain::process_transaction`:
scan the registry in order for the first contract whose id matches, run the
requested method there, and return the result together with the updated
registry; `none` when no contract matches. -/
def dispatch (cs : List BasicToken) (t : Transaction) :
    Option (Except Error Nat × List BasicToken) :=
  match cs with
  | [] => none
  | c :: rest =>
    if c.contract = t.contract then
      match t.method with
      | .BalanceOf => some (.ok (balance_of c t.sender), c :: rest)
      | .Transfer =>
        let r := transfer c t.sender t.amount t.destination
        some (r.1.map (fun _ => 0), r.2 :: rest)
    else
      match dispatch rest t with
      | some (r, rest2) => some (r, c :: rest2)
      | none => none

/-- Model of `Blockchain::process_transaction`: validate the sequence (an
early error returns the state unchanged), then dispatch to the first
matching contract; when none matches, increment `block_height` and fail
with `ContractNotFound`. -/
def process_transaction (b : Blockchain) (t : Transaction) :
    Except Error Nat × Blockchain :=
  let v := validate_transaction_sequence b t
  match v.1 with
  | .error e => (.error e, v.2)
  | .ok _ =>
    match dispatch v.2.contracts t with
    | some (r, cs2) => (r, { v.2 with contracts := cs2 })
    | none =>
      (.error .ContractNotFound, { v.2 with block_height := v.2.block_height + 1 })

/-- First contract in the registry whose id matches: the condition tested
by the lookup loop in `process_transaction`. -/
def findContract : List BasicToken → String → Option BasicToken
  | [], _ => none
  | c :: rest, cid => if c.contract = cid then some c else findContract rest cid

/-! ### Association-list map lemmas -/

/-- Looking up the freshly inserted key returns the inserted value. -/
theorem lget_linsert_self (l : List (String × Nat)) (a : String) (v : Nat) :
    lget (linsert l a v) a = some v := by
  induction l with
  | nil => simp [linsert, lget]
  | cons p rest ih =>
    by_cases h : p.1 = a
    · simp [linsert, h, lget]
    · simp [linsert, h, lget, ih]

/-- Looking up any other key is unaffected by an insertion. -/
theorem lget_linsert_ne (l : List (String × Nat)) (a b : String) (v : Nat)
    (hne : b ≠ a) : lget (linsert l a v) b = lget l b := by
  have hab : ¬ a = b := fun k => hne k.symm
  induction l with
  | nil => simp [linsert, lget, hab]
  | cons p rest ih =>
    by_cases h : p.1 = a
    · have hpb : ¬ p.1 = b := by
        rw [h]
        exact hab
      simp [linsert, h, lget, hpb, hab]
    · by_cases hpb : p.1 = b
      · simp [linsert, h, lget, hpb, hne]
      · simp [linsert, h, lget, hpb, ih]

/-- `lgetD` version of `lget_linsert_self`. -/
theorem lgetD_linsert_self (l : List (String × Nat)) (a : String) (v : Nat) :
    lgetD (linsert l a v) a = v := by
  simp [lgetD, lget_linsert_self]

/-- `lgetD` version of `lget_linsert_ne`. -/
theorem lgetD_linsert_ne (l : List (String × Nat)) (a b : String) (v : Nat)
    (hne : b ≠ a) : lgetD (linsert l a v) b = lgetD l b := by
  simp [lgetD, lget_linsert_ne l a b v hne]

/-- How an insertion moves the ledger total: the old binding of the key is
replaced by the new value. -/
theorem ledger_total_linsert (l : List (String × Nat)) (a : String) (v : Nat) :
    ledger_total (linsert l a v) + lgetD l a = ledger_total l + v := by
  induction l with
  | nil => simp [linsert, ledger_total, lgetD, lget]
  | cons p rest ih =>
    by_cases h : p.1 = a
    · simp only [linsert, h, if_pos, ledger_total, lgetD, lget]
      simp [lgetD] at ih ⊢
      omega
    · simp only [linsert, h, if_neg, ledger_total, lgetD, lget, not_false_iff]
      simp [lgetD, h] at ih ⊢
      omega

/-! ### Dispatch lemmas -/

/-- The lookup loop falls through (and the dispatcher reaches the
height-increment line) exactly when no registered contract id matches. -/
theorem dispatch_eq_none_iff (cs : List BasicToken) (t : Transaction) :
    dispatch cs t = none ↔ findContract cs t.contract = none := by
  induction cs with
  | nil => simp [dispatch, findContract]
  | cons c rest ih =>
    by_cases h : c.contract = t.contract
    · cases hm : t.method <;> simp [dispatch, findContract, h, hm]
    · simp only [dispatch, if_neg h, findContract]
      cases hd : dispatch rest t with
      | none => simpa [hd] using ih
      | some pr =>
        obtain ⟨r, rest2⟩ := pr
        simp only [hd] at ih
        simp [← ih]

/-- A `BalanceOf` dispatch that finds its contract returns that contract's
balance for the sender and leaves the whole registry unchanged. -/
theorem dispatch_balanceOf (cs : List BasicToken) (t : Transaction) (c : BasicToken)
    (hm : t.method = .BalanceOf) (hf : findContract cs t.contract = some c) :
    dispatch cs t = some (.ok (balance_of c t.sender), cs) := by
  induction cs with
  | nil => simp [findContract] at hf
  | cons c0 rest ih =>
    by_cases h : c0.contract = t.contract
    · simp only [findContract, if_pos h, Option.some_inj] at hf
      subst hf
      simp [dispatch, h, hm]
    · simp only [findContract, if_neg h] at hf
      simp [dispatch, h, ih hf]

/-- After a passing sequence validation, `process_transaction` leaves the
sequence table at `linsert accounts sender sequence`, whatever the dispatch
outcome. -/
theorem process_accounts_of_pass (b : Blockchain) (t : Transaction)
    (hp : lgetD b.accounts t.sender < t.sequence) :
    ((process_transaction b t).2).accounts = linsert b.accounts t.sender t.sequence := by
  have hv : ¬ t.sequence ≤ lgetD b.accounts t.sender := not_le.mpr hp
  simp only [process_transaction, validate_transaction_sequence, if_neg hv]
  cases hd : dispatch b.contracts t with
  | none => simp [hd]
  | some pr =>
    obtain ⟨r, cs2⟩ := pr
    simp [hd]

/-! ### Claim theorems: dispatcher -/

/-- C1: for every dispatcher state and every transaction whose sequence is
at most the sender's last-seen sequence (default 0 for a never-seen
sender), `process_transaction` returns `BadTransactionSequence` and the
entire state — every contract ledger, the sequence table, and the block
height — is returned unchanged. -/
theorem c1_bad_sequence_rejected_without_mutation (b : Blockchain) (t : Transaction)
    (h : t.sequence ≤ lgetD b.accounts t.sender) :
    process_transaction b t = (.error .BadTransactionSequence, b) := by
  simp [process_transaction, validate_transaction_sequence, if_pos h]

/-- Concrete dispatcher state for the C1 witness. -/
def bW1 : Blockchain :=
  { block_height := 0,
    contracts := [BasicToken.new "USDC" ["addr1", "addr2"] 1000],
    accounts := [] }

/-- Concrete replayed transaction for the C1 witness: sequence 0 against a
never-seen sender whose implicit last-seen value is 0. -/
def tW1 : Transaction :=
  { sender := "addr1", sequence := 0, amount := 0, contract := "USDC",
    method := .BalanceOf, destination := "" }

/-- Witness for C1 at a concrete state and transaction. -/
theorem c1_witness :
    process_transaction bW1 tW1 = (.error .BadTransactionSequence, bW1) :=
  c1_bad_sequence_rejected_without_mutation bW1 tW1 (by decide)

/-- C4: once sequence validation passes, the sender's stored sequence
becomes the transaction's sequence whatever happens afterwards (successful
dispatch, `ContractNotFound`, or a failing transfer), and it is strictly
above the previously stored value. -/
theorem c4_sequence_consumed_on_pass (b : Blockchain) (t : Transaction)
    (hp : lgetD b.accounts t.sender < t.sequence) :
    lgetD ((process_transaction b t).2).accounts t.sender = t.sequence ∧
    lgetD b.accounts t.sender < lgetD ((process_transaction b t).2).accounts t.sender := by
  have h := process_accounts_of_pass b t hp
  rw [h, lgetD_linsert_self]
  exact ⟨rfl, hp⟩

/-- Dispatcher state for the C4 witness: no contracts, so the dispatch
phase fails with `ContractNotFound`, yet the sequence is still consumed. -/
def bW4 : Blockchain := { block_height := 0, contracts := [], accounts := [] }

/-- Transaction for the C4 witness. -/
def tW4 : Transaction :=
  { sender := "addr1", sequence := 5, amount := 0, contract := "USDC",
    method := .Transfer, destination := "addr2" }

/-- Witness for C4: the sequence is recorded even though this concrete call
fails with `ContractNotFound`. -/
theorem c4_witness :
    lgetD ((process_transaction bW4 tW4).2).accounts "addr1" = 5 ∧
    lgetD bW4.accounts "addr1" < lgetD ((process_transaction bW4 tW4).2).accounts "addr1" :=
  c4_sequence_consumed_on_pass bW4 tW4 (by decide)

/-- C5: `block_height` grows by one exactly on calls that pass sequence
validation and find no matching contract; every other call — successful
query or transfer, `BadTransactionSequence`, or a transfer failure — leaves
it unchanged. -/
theorem c5_height_increment_only_on_contract_not_found (b : Blockchain) (t : Transaction) :
    ((process_transaction b t).2).block_height =
      if lgetD b.accounts t.sender < t.sequence ∧
          findContract b.contracts t.contract = none
      then b.block_height + 1
      else b.block_height := by
  by_cases hp : t.sequence ≤ lgetD b.accounts t.sender
  · have hnlt : ¬ lgetD b.accounts t.sender < t.sequence := not_lt.mpr hp
    simp [process_transaction, validate_transaction_sequence, if_pos hp, hnlt]
  · have hlt : lgetD b.accounts t.sender < t.sequence := not_le.mp hp
    simp only [process_transaction, validate_transaction_sequence, if_neg hp]
    cases hd : dispatch b.contracts t with
    | none =>
      have hf : findContract b.contracts t.contract = none :=
        (dispatch_eq_none_iff b.contracts t).mp hd
      simp [hd, hf, hlt]
    | some pr =>
      obtain ⟨r, cs2⟩ := pr
      have hf : ¬ findContract b.contracts t.contract = none := by
        rw [← dispatch_eq_none_iff]
        simp [hd]
      simp [hd, hf, hlt]

/-- C7: a transaction that passes sequence validation but whose target
contract id matches no registered contract fails with `ContractNotFound`
(the statement holds for both methods, as no hypothesis constrains
`t.method`). -/
theorem c7_unknown_contract (b : Blockchain) (t : Transaction)
    (hp : lgetD b.accounts t.sender < t.sequence)
    (hf : findContract b.contracts t.contract = none) :
    (process_transaction b t).1 = .error .ContractNotFound := by
  have hv : ¬ t.sequence ≤ lgetD b.accounts t.sender := not_le.mpr hp
  have hd : dispatch b.contracts t = none := (dispatch_eq_none_iff b.contracts t).mpr hf
  simp [process_transaction, validate_transaction_sequence, if_neg hv, hd]

/-- Dispatcher state for the C7 witness: one registered contract. -/
def bW7 : Blockchain :=
  { block_height := 0,
    contracts := [BasicToken.new "USDC" ["addr1"] 1000],
    accounts := [] }

/-- Transaction for the C7 witness: its target id matches no contract. -/
def tW7 : Transaction :=
  { sender := "addr1", sequence := 1, amount := 7, contract := "WBTC",
    method := .Transfer, destination := "addr2" }

/-- Witness for C7 at a concrete state and transaction. -/
theorem c7_witness :
    (process_transaction bW7 tW7).1 = .error .ContractNotFound :=
  c7_unknown_contract bW7 tW7 (by decide) (by decide)

/-! ### Claim theorems: token contract -/

/-- C3: `transfer` fails with `NotEnoughBalance` exactly when the amount
exceeds the sender's balance, and on that failure the contract — its whole
ledger included — is returned unchanged. -/
theorem c3_insufficient_funds_rejection (c : BasicToken) (s : String) (a : Nat)
    (d : String) :
    ((transfer c s a d).1 = .error .NotEnoughBalance ↔ balance_of c s < a) ∧
    (balance_of c s < a → (transfer c s a d).2 = c) := by
  by_cases h : a > lgetD c.ledger s
  · simp [transfer, if_pos h, balance_of, h]
  · have hn : ¬ balance_of c s < a := h
    have hok : (transfer c s a d).1 = Except.ok () := by
      simp [transfer, if_neg h]
    refine ⟨?_, fun habs => absurd habs hn⟩
    rw [hok]
    exact ⟨fun habs => Except.noConfusion habs, fun habs => absurd habs hn⟩

/-- Concrete contract for the C3 witness. -/
def cW3 : BasicToken := BasicToken.new "USDC" ["addr1"] 1000

/-- Witness for C3 at a concrete contract and an amount above the sender's
balance. -/
theorem c3_witness :
    (((transfer cW3 "addr1" 2000 "addr2").1 = .error .NotEnoughBalance ↔
        balance_of cW3 "addr1" < 2000) ∧
      (balance_of cW3 "addr1" < 2000 → (transfer cW3 "addr1" 2000 "addr2").2 = cW3)) ∧
    balance_of cW3 "addr1" < 2000 :=
  ⟨c3_insufficient_funds_rejection cW3 "addr1" 2000 "addr2", by decide⟩

/-- C6: a funded self-transfer succeeds and changes no balance at all. The
hypothesis `balance_of c s < U64MOD` is the `u64` range of the stored
balance; under it the wraparound on the credit is the identity. -/
theorem c6_self_transfer_is_noop (c : BasicToken) (s : String) (a : Nat)
    (hle : a ≤ balance_of c s) (hrange : balance_of c s < U64MOD) :
    (transfer c s a s).1 = .ok () ∧
    ∀ x, balance_of (transfer c s a s).2 x = balance_of c x := by
  have hle2 : a ≤ lgetD c.ledger s := hle
  have hrange2 : lgetD c.ledger s < U64MOD := hrange
  have hng : ¬ a > lgetD c.ledger s := not_lt.mpr hle2
  refine ⟨by simp [transfer, if_neg hng], ?_⟩
  intro x
  simp only [transfer, if_neg hng, balance_of]
  have h1 : lgetD (linsert c.ledger s (lgetD c.ledger s - a)) s
      = lgetD c.ledger s - a := lgetD_linsert_self c.ledger s (lgetD c.ledger s - a)
  rw [h1]
  have hval : (lgetD c.ledger s - a + a) % U64MOD = lgetD c.ledger s := by
    rw [Nat.sub_add_cancel hle2, Nat.mod_eq_of_lt hrange2]
  rw [hval]
  by_cases hx : x = s
  · subst hx
    rw [lgetD_linsert_self]
  · rw [lgetD_linsert_ne _ _ _ _ hx, lgetD_linsert_ne _ _ _ _ hx]

/-- Concrete contract for the C6 witness. -/
def cW6 : BasicToken := BasicToken.new "USDC" ["addr1"] 1000

/-- Witness for C6: a concrete funded self-transfer succeeds and leaves the
sender's balance where it was. -/
theorem c6_witness :
    (transfer cW6 "addr1" 100 "addr1").1 = .ok () ∧
    balance_of (transfer cW6 "addr1" 100 "addr1").2 "addr1" = balance_of cW6 "addr1" :=
  ⟨(c6_self_transfer_is_noop cW6 "addr1" 100 (by decide) (by decide)).1,
    (c6_self_transfer_is_noop cW6 "addr1" 100 (by decide) (by decide)).2 "addr1"⟩

/-- C8: `balance_of` returns the recorded balance when the address has an
entry and zero when it has none; it is a pure function of the contract, so
it can neither fail nor modify the ledger. -/
theorem c8_balance_of_recorded_or_zero (c : BasicToken) (a : String) :
    (lget c.ledger a = none ∧ balance_of c a = 0) ∨
    (∃ v, lget c.ledger a = some v ∧ balance_of c a = v) := by
  cases h : lget c.ledger a with
  | none => exact Or.inl ⟨rfl, by simp [balance_of, lgetD, h]⟩
  | some v => exact Or.inr ⟨v, rfl, by simp [balance_of, lgetD, h]⟩

/-- C2 (amended): a successful transfer of `a` from `s` to `d ≠ s` debits
the sender by exactly `a`, credits the destination by exactly `a`, and
preserves the ledger total — provided the destination credit does not
overflow `u64` (`balance_of c d + a < 2^64`); without that proviso the
claim fails, see the counterexample. -/
theorem c2_transfer_conservation (c : BasicToken) (s : String) (a : Nat) (d : String)
    (hsd : s ≠ d) (hle : a ≤ balance_of c s) (hov : balance_of c d + a < U64MOD) :
    (transfer c s a d).1 = .ok () ∧
    balance_of (transfer c s a d).2 s + a = balance_of c s ∧
    balance_of (transfer c s a d).2 d = balance_of c d + a ∧
    ledger_total ((transfer c s a d).2).ledger = ledger_total c.ledger := by
  have hle2 : a ≤ lgetD c.ledger s := hle
  have hov2 : lgetD c.ledger d + a < U64MOD := hov
  have hng : ¬ a > lgetD c.ledger s := not_lt.mpr hle2
  have hds : d ≠ s := fun k => hsd k.symm
  have hgd : lgetD (linsert c.ledger s (lgetD c.ledger s - a)) d = lgetD c.ledger d :=
    lgetD_linsert_ne c.ledger s d (lgetD c.ledger s - a) hds
  refine ⟨by simp [transfer, if_neg hng], ?_, ?_, ?_⟩
  · simp only [transfer, if_neg hng, balance_of]
    rw [lgetD_linsert_ne _ _ _ _ hsd, lgetD_linsert_self, Nat.sub_add_cancel hle2]
  · simp only [transfer, if_neg hng, balance_of]
    rw [lgetD_linsert_self, hgd, Nat.mod_eq_of_lt hov2]
  · simp only [transfer, if_neg hng, balance_of]
    have h2 := ledger_total_linsert (linsert c.ledger s (lgetD c.ledger s - a)) d
      ((lgetD (linsert c.ledger s (lgetD c.ledger s - a)) d + a) % U64MOD)
    have h3 := ledger_total_linsert c.ledger s (lgetD c.ledger s - a)
    rw [hgd, Nat.mod_eq_of_lt hov2] at h2 ⊢
    omega

/-- Concrete contract refuting C2 as stated: the destination already holds
`2^64 - 1` tokens, so any credit wraps. -/
def cC2 : BasicToken :=
  { contract := "USDC", ledger := [("S", 1), ("D", U64MOD - 1)] }

/-- Counterexample to C2 as stated: a successful transfer of 1 token from
`S` to `D ≠ S` after which the destination balance did not increase by 1
(it wrapped to 0) and the ledger total changed. -/
theorem c2_counterexample :
    ("S" : String) ≠ "D" ∧
    1 ≤ balance_of cC2 "S" ∧
    (transfer cC2 "S" 1 "D").1 = .ok () ∧
    balance_of (transfer cC2 "S" 1 "D").2 "D" ≠ balance_of cC2 "D" + 1 ∧
    ledger_total ((transfer cC2 "S" 1 "D").2).ledger ≠ ledger_total cC2.ledger := by
  refine ⟨by decide, by decide, ?_, by decide, by decide⟩
  rfl

/-- Concrete contract for the C2 witness. -/
def cW2 : BasicToken := BasicToken.new "USDC" ["addr1", "addr2"] 1000

/-- Witness for the amended C2 at a concrete overflow-free transfer. -/
theorem c2_witness :
    (transfer cW2 "addr1" 100 "addr2").1 = .ok () ∧
    balance_of (transfer cW2 "addr1" 100 "addr2").2 "addr1" + 100 = balance_of cW2 "addr1" ∧
    balance_of (transfer cW2 "addr1" 100 "addr2").2 "addr2" = balance_of cW2 "addr2" + 100 ∧
    ledger_total ((transfer cW2 "addr1" 100 "addr2").2).ledger = ledger_total cW2.ledger :=
  c2_transfer_conservation cW2 "addr1" 100 "addr2" (by decide) (by decide) (by decide)

/-- Concrete contract exhibiting the unguarded destination-credit overflow
of C10. -/
def cC10 : BasicToken :=
  { contract := "WBTC", ledger := [("S", U64MOD - 1), ("D", U64MOD - 1)] }

/-- C10: the credit `target_balance += amount` is not guarded against
`u64` overflow: at this state the transfer succeeds, the destination
balance is stored reduced modulo `2^64`, and the ledger total changes. -/
theorem c10_unguarded_overflow_breaks_total :
    1 ≤ balance_of cC10 "S" ∧
    U64MOD - 1 < balance_of cC10 "D" + 1 ∧
    (transfer cC10 "S" 1 "D").1 = .ok () ∧
    balance_of (transfer cC10 "S" 1 "D").2 "D" = (balance_of cC10 "D" + 1) % U64MOD ∧
    ledger_total ((transfer cC10 "S" 1 "D").2).ledger ≠ ledger_total cC10.ledger := by
  refine ⟨by decide, by decide, ?_, by decide, by decide⟩
  rfl

/-- C9: a `BalanceOf` transaction that passes validation and finds its
contract returns that contract's balance for the sender and leaves the
whole contract registry (hence every ledger) unchanged; a second such
query by the same sender on the same contract with a strictly larger
sequence returns the same result. -/
theorem c9_balance_query_pure_and_repeatable (b : Blockchain) (t1 t2 : Transaction)
    (c : BasicToken)
    (hm1 : t1.method = .BalanceOf) (hm2 : t2.method = .BalanceOf)
    (hs : t2.sender = t1.sender) (hc : t2.contract = t1.contract)
    (hp1 : lgetD b.accounts t1.sender < t1.sequence)
    (hseq : t1.sequence < t2.sequence)
    (hf : findContract b.contracts t1.contract = some c) :
    (process_transaction b t1).1 = .ok (balance_of c t1.sender) ∧
    ((process_transaction b t1).2).contracts = b.contracts ∧
    (process_transaction ((process_transaction b t1).2) t2).1
      = (process_transaction b t1).1 := by
  have hv1 : ¬ t1.sequence ≤ lgetD b.accounts t1.sender := not_le.mpr hp1
  have hd1 : dispatch b.contracts t1 = some (.ok (balance_of c t1.sender), b.contracts) :=
    dispatch_balanceOf b.contracts t1 c hm1 hf
  have hP1 : process_transaction b t1 =
      (.ok (balance_of c t1.sender),
        { b with accounts := linsert b.accounts t1.sender t1.sequence }) := by
    simp [process_transaction, validate_transaction_sequence, if_neg hv1, hd1]
  rw [hP1]
  refine ⟨rfl, rfl, ?_⟩
  have hv2 : ¬ t2.sequence ≤ lgetD (linsert b.accounts t1.sender t1.sequence) t1.sender := by
    rw [lgetD_linsert_self]
    exact not_le.mpr hseq
  have hf2 : findContract b.contracts t2.contract = some c := by
    rw [hc]
    exact hf
  have hd2 : dispatch b.contracts t2 = some (.ok (balance_of c t2.sender), b.contracts) :=
    dispatch_balanceOf b.contracts t2 c hm2 hf2
  simp [process_transaction, validate_transaction_sequence, hs, hv2, hd2]

/-- Dispatcher state for the C9 witness. -/
def bW9 : Blockchain :=
  { block_height := 0,
    contracts := [BasicToken.new "USDC" ["addr1", "addr2"] 1000],
    accounts := [] }

/-- The contract the C9 witness queries. -/
def cW9 : BasicToken := BasicToken.new "USDC" ["addr1", "addr2"] 1000

/-- First balance query of the C9 witness. -/
def tW9a : Transaction :=
  { sender := "addr1", sequence := 1, amount := 0, contract := "USDC",
    method := .BalanceOf, destination := "" }

/-- Second balance query of the C9 witness, with a strictly larger
sequence. -/
def tW9b : Transaction := { tW9a with sequence := 2 }

/-- Witness for C9 at a concrete pair of queries. -/
theorem c9_witness :
    (process_transaction bW9 tW9a).1 = .ok (balance_of cW9 "addr1") ∧
    ((process_transaction bW9 tW9a).2).contracts = bW9.contracts ∧
    (process_transaction ((process_transaction bW9 tW9a).2) tW9b).1
      = (process_transaction bW9 tW9a).1 :=
  c9_balance_query_pure_and_repeatable bW9 tW9a tW9b cW9 (by decide) (by decide)
    (by decide) (by decide) (by decide) (by decide) (by decide)

end MockChain
